import Mathlib

/-!
# Verification of the GitHub API client layer (`src/lib/github_api.ts`)

A shallow embedding of the request/response handling layer of the
`kibana-bot` repository: the `GithubApi` class, its domain operations
(`compare`, `getCommitDate`), its paginated traversal (`ittrAllOpenPrs`),
its request dispatcher (`req`), the rate-limit monitor
(`checkForRateLimitInfo` / `logRateLimitInfo` / `throttledLogRateLimitInfo`),
and the per-context client cache (`makeContextCache`, modelled from the spec
since `req_cache.ts` is not among the provided sources).

Effectful TypeScript code is embedded as pure functions that return, next to
their result, an explicit trace of the observable effects (log entries,
rate-limit monitor feeds, upstream requests).  JavaScript timestamps are
`Int` (milliseconds), JavaScript string truthiness is modelled explicitly
(`undefined` and `""` are falsy, every other string — including `"0"` — is
truthy), and the external `parse-link-header` library and JavaScript float
parsing are kept as parameters, so every theorem quantifies over their
behaviour.
-/

namespace GithubApiSpec

/-- Severity levels of the injected `Log` capability (`debug`, `info`, `error`). -/
inductive LogLevel where
  | debug
  | info
  | error
deriving DecidableEq, Repr

/-- Commit records of a compare response are opaque payloads to this layer;
we model them by their sha string. -/
abbrev GithubApiCompareCommit := String

/-- The body of a compare response: `ahead_by` count and the `commits` list. -/
structure GithubApiCompare where
  ahead_by : Int
  commits : List GithubApiCompareCommit
deriving DecidableEq, Repr

/-- An axios response as consumed by this layer: status, statusText,
headers (`none` models a falsy `resp.headers`; header values are the raw
strings), and an opaque body. -/
structure AxiosResponse where
  status : Nat
  statusText : String
  headers : Option (List (String × String))
  data : String
deriving DecidableEq, Repr

/-- Structured metadata passed to the logger at the call sites of
`github_api.ts`, one constructor per call-site shape. -/
inductive LogMeta where
  /-- `compare`: `{ totalMissingCommits, respBody }` on an invariant violation. -/
  | compareError (totalMissingCommits : Int) (respBody : GithubApiCompare)
  /-- `req`: the `'@type': 'githubApiResponseError'` entry, carrying the
  response status, the request context (method, url, params, body) and the
  response (headers, body, status, statusText). -/
  | responseError (status : Nat) (method url : String)
      (params body : Option String) (response : AxiosResponse)
  /-- `req`: the `'@type': 'githubApiRequestError'` entry, carrying the error
  message and the request context. -/
  | requestError (errorMessage : String) (method url : String)
      (params body : Option String)
  /-- `logRateLimitInfo`: `{ type: 'githubRateLimit', rateLimit: { remaining, total } }`,
  with the parsed numbers rendered to strings. -/
  | rateLimit (remaining total : String)
  /-- plain metadata-free log lines (e.g. `'fetching initial page of PRs'`). -/
  | plain
deriving DecidableEq, Repr

/-- One emitted log entry: level, message, structured metadata. -/
structure LogEntry where
  level : LogLevel
  msg : String
  meta : LogMeta
deriving DecidableEq, Repr

/-! ## `getCommitDate` (lines 39–43)

```ts
const getCommitDate = (commit: Commit) => {
  const committerDate = new Date(commit.committer.date)
  const authorDate = new Date(commit.author.date)
  return committerDate > authorDate ? committerDate : authorDate
}
```

Dates are modelled by their millisecond timestamps (`Int`), which is the
total order `>` compares them by. -/

/-- The `author` / `committer` sub-record of a commit: its parsed timestamp. -/
structure CommitPerson where
  date : Int
deriving DecidableEq, Repr

/-- A commit payload as consumed by `getCommitDate`. -/
structure Commit where
  author : CommitPerson
  committer : CommitPerson
deriving DecidableEq, Repr

/-- `getCommitDate`: the committer date if strictly later than the author
date, otherwise the author date. -/
def getCommitDate (commit : Commit) : Int :=
  if commit.committer.date > commit.author.date then commit.committer.date
  else commit.author.date

/-! ## `compare` (lines 63–94)

The network fetch is factored out: `compare` is modelled as the processing
of an already-fetched response body, returning the list of log entries it
emits and either the thrown error message or the returned value. -/

/-- The value returned by a successful `compare` call. -/
structure CompareResult where
  totalMissingCommits : Int
  missingCommits : List GithubApiCompareCommit
deriving DecidableEq, Repr

/-- `compare`, applied to the fetched response body: if `ahead_by > 0` and
the commits list is empty, log at error level (with the response body in the
metadata) and throw `'Unexpected github response'`; otherwise return
`{ totalMissingCommits, missingCommits }` from the response. -/
def compare (respData : GithubApiCompare) :
    List LogEntry × Except String CompareResult :=
  if respData.ahead_by > 0 ∧ respData.commits.length = 0 then
    ([{ level := .error,
        msg := "unexpected github response, expected oldest missing commit",
        meta := .compareError respData.ahead_by respData }],
      .error "Unexpected github response")
  else
    ([], .ok { totalMissingCommits := respData.ahead_by,
               missingCommits := respData.commits })

/-! ## `ittrAllOpenPrs` (lines 116–154)

The async generator is embedded as a function from the sequence of upstream
page responses (consumed in order, one per issued request) to the full
observable outcome: the records yielded, the upstream requests issued (in
order), and how the traversal ended.  The external `parse-link-header`
library is a parameter `parseLink`; the loop only reads `links.next.url`
from its result, so the parse result is modelled as `Option NextLink`
(`none` = the header did not parse). -/

/-- Pull-request records are opaque payloads to the traversal; we model them
by their `number`. -/
abbrev GithubApiPr := Nat

/-- The `next` relation of a parsed link header: `links.next.url` if the
`next` relation is present. -/
structure ParsedLinks where
  next : Option String
deriving DecidableEq, Repr

/-- An upstream request issued by the traversal: either the fixed open-PRs
resource filtered to `state=open` (the `url === null` sentinel branch), or a
verbatim continuation URL. -/
inductive PageRequest where
  /-- `GET /repos/elastic/kibana/pulls` with `{ state: 'open' }`. -/
  | initial
  /-- `GET url` where `url` is the stored continuation URL, used verbatim. -/
  | next (url : String)
deriving DecidableEq, Repr

/-- One upstream page response: its record list `data` and its
`headers['link']` value (`none` when the header is absent; `some ""` is a
present-but-falsy value, which the `!page.headers['link']` check also
rejects). -/
structure PageResponse where
  data : List GithubApiPr
  link : Option String
deriving DecidableEq, Repr

/-- JavaScript truthiness of an optional string: `undefined` and `""` are
falsy, every other string is truthy. -/
def truthy : Option String → Bool
  | none => false
  | some s => s ≠ ""

/-- How a traversal run ended. -/
inductive TraversalEnd where
  /-- the queue emptied: no `next` relation on the last page. -/
  | done
  /-- a thrown `Error` with the given message. -/
  | error (msg : String)
  /-- the supplied response sequence ran out with a request still pending
  (the run is not determined by the given upstream prefix). -/
  | exhausted
deriving DecidableEq, Repr

/-- The observable outcome of a traversal run. -/
structure TraversalResult where
  yielded : List GithubApiPr
  requests : List PageRequest
  finish : TraversalEnd
deriving DecidableEq, Repr

/-- The `while (urls.length)` loop of `ittrAllOpenPrs`: pop the front
reference (`null` = sentinel for the first page), fetch, yield every record
of the page in order, then require a truthy `link` header (else throw
`'missing link header'`), parse it (a failed parse throws
`'unable to parse link header'`), and push the `next` URL, if any, for the
following iteration. -/
def ittrLoop (parseLink : String → Option ParsedLinks) :
    List PageResponse → List (Option String) → TraversalResult
  | _, [] => { yielded := [], requests := [], finish := .done }
  | [], url :: _ =>
    { yielded := [],
      requests := [match url with | none => .initial | some u => .next u],
      finish := .exhausted }
  | page :: restResps, url :: restUrls =>
    let request : PageRequest := match url with | none => .initial | some u => .next u
    if truthy page.link = false then
      { yielded := page.data, requests := [request],
        finish := .error "missing link header" }
    else
      match parseLink (page.link.getD "") with
      | none =>
        { yielded := page.data, requests := [request],
          finish := .error "unable to parse link header" }
      | some links =>
        let nextUrls := restUrls ++ (match links.next with
          | some u => [some u]
          | none => [])
        let rest := ittrLoop parseLink restResps nextUrls
        { yielded := page.data ++ rest.yielded,
          requests := request :: rest.requests,
          finish := rest.finish }

/-- `ittrAllOpenPrs`: run the loop with the queue seeded with the
`null` sentinel. -/
def ittrAllOpenPrs (parseLink : String → Option ParsedLinks)
    (responses : List PageResponse) : TraversalResult :=
  ittrLoop parseLink responses [none]

/-! ## `req` (lines 156–207) and the error classifiers (lines 16–28)

`req` is embedded as a function of the transport outcome (the settled
result of the `this.ax({...})` call), returning the trace of observable
effects — rate-limit monitor feeds and log entries, in order — together
with the returned response or the rethrown error. -/

/-- A JavaScript error as classified by `isAxiosErrorReq` /
`isAxiosErrorResp`: whether `error.request` is truthy, the optional
`error.response`, and the error message. -/
structure JsError where
  hasRequest : Bool
  response : Option AxiosResponse
  message : String
deriving DecidableEq, Repr

/-- `isAxiosErrorReq`: `error && error.request`. -/
def isAxiosErrorReq (error : JsError) : Bool :=
  error.hasRequest

/-- `isAxiosErrorResp`: `error && error.request && error.response`. -/
def isAxiosErrorResp (error : JsError) : Bool :=
  error.hasRequest && error.response.isSome

/-- The settled outcome of the underlying `this.ax({...})` transport call. -/
inductive AxiosOutcome where
  | ok (resp : AxiosResponse)
  | err (error : JsError)
deriving DecidableEq, Repr

/-- An observable effect of `req`, in program order: a
`checkForRateLimitInfo` feed or an emitted log entry. -/
inductive ReqEvent where
  | monitorFeed (resp : AxiosResponse)
  | log (entry : LogEntry)
deriving DecidableEq, Repr

/-- `req`: on success, feed the response to the rate-limit monitor and
return it.  On failure, if the error has a response (and a request), feed
that response to the monitor and log a `githubApiResponseError` debug entry;
else if it has a request, log a `githubApiRequestError` debug entry; else
log nothing; in every failure case rethrow the error unchanged. -/
def req (method url : String) (params body : Option String)
    (outcome : AxiosOutcome) : List ReqEvent × Except JsError AxiosResponse :=
  match outcome with
  | .ok resp => ([.monitorFeed resp], .ok resp)
  | .err error =>
    let events : List ReqEvent :=
      match error.response, error.hasRequest with
      | some resp, true =>
        [.monitorFeed resp,
         .log { level := .debug, msg := "github api response error",
                meta := .responseError resp.status method url params body resp }]
      | none, true =>
        [.log { level := .debug, msg := "github api request error",
                meta := .requestError error.message method url params body }]
      | _, false => []
    (events, .error error)

/-- The responses fed to the rate-limit monitor within an event trace. -/
def monitorFeeds (events : List ReqEvent) : List AxiosResponse :=
  events.filterMap (fun e => match e with
    | .monitorFeed r => some r
    | .log _ => none)

/-! ## Rate-limit monitor (lines 47–50, 209–220, 237–245)

JavaScript float parsing and number rendering are parameters (`parseFloat`,
`numStr`), so the theorems hold for any semantics of `Number.parseFloat`
and of template-literal number formatting. -/

/-- Look up a response header by name. -/
def headerGet (hs : List (String × String)) (k : String) : Option String :=
  (hs.find? (fun p => p.1 = k)).map Prod.snd

/-- `checkForRateLimitInfo`: if `resp.headers` is truthy and both
`x-ratelimit-limit` and `x-ratelimit-remaining` header values are truthy,
call the throttled logger with `(parseFloat remaining, parseFloat limit)`.
The result is the list of throttled-call argument pairs made (empty or a
singleton). -/
def checkForRateLimitInfo {Num : Type} (parseFloat : String → Num)
    (resp : AxiosResponse) : List (Num × Num) :=
  match resp.headers with
  | none => []
  | some hs =>
    if truthy (headerGet hs "x-ratelimit-limit") &&
        truthy (headerGet hs "x-ratelimit-remaining") then
      [(parseFloat ((headerGet hs "x-ratelimit-remaining").getD ""),
        parseFloat ((headerGet hs "x-ratelimit-limit").getD ""))]
    else []

/-- `logRateLimitInfo`: the info-level entry
`` `rate limit ${remaining}/${total}` `` with
`{ type: 'githubRateLimit', rateLimit: { remaining, total } }`. -/
def logRateLimitInfo {Num : Type} (numStr : Num → String)
    (remaining total : Num) : LogEntry :=
  { level := .info,
    msg := "rate limit " ++ numStr remaining ++ "/" ++ numStr total,
    meta := .rateLimit (numStr remaining) (numStr total) }

/-- State of a `lodash.throttle` wrapper (leading and trailing edges, the
defaults): the time of the last actual invocation, and the pending trailing
arguments, if any. -/
structure ThrottleState (A : Type) where
  lastInvoke : Option Nat
  pending : Option A
deriving DecidableEq, Repr

/-- Fire the pending trailing invocation if its due time (`lastInvoke +
wait`) has been reached by `now`.  Returns the fired invocations
(timestamped) and the new state. -/
def throttleFlush {A : Type} (wait : Nat) (s : ThrottleState A) (now : Nat) :
    List (Nat × A) × ThrottleState A :=
  match s.lastInvoke, s.pending with
  | some li, some a =>
    if li + wait ≤ now then ([(li + wait, a)], ⟨some (li + wait), none⟩)
    else ([], s)
  | _, _ => ([], s)

/-- One call of the throttled function at time `now` with arguments `a`:
first fire any due trailing invocation, then invoke on the leading edge if
at least `wait` has elapsed since the last invocation (or none has
happened), else store `a` as the pending trailing arguments (overwriting
any previous pending arguments). -/
def throttleCall {A : Type} (wait : Nat) (s : ThrottleState A) (now : Nat)
    (a : A) : List (Nat × A) × ThrottleState A :=
  let fired := throttleFlush wait s now
  match fired.2.lastInvoke with
  | none => (fired.1 ++ [(now, a)], ⟨some now, none⟩)
  | some li =>
    if li + wait ≤ now then (fired.1 ++ [(now, a)], ⟨some now, none⟩)
    else (fired.1, ⟨some li, some a⟩)

/-- Run a sequence of timestamped calls through the throttle from a given
state. -/
def throttleRunAux {A : Type} (wait : Nat) (s : ThrottleState A) :
    List (Nat × A) → List (Nat × A) × ThrottleState A
  | [] => ([], s)
  | (t, a) :: rest =>
    let fired := throttleCall wait s t a
    let more := throttleRunAux wait fired.2 rest
    (fired.1 ++ more.1, more.2)

/-- The trailing invocation still pending in a throttle state: it fires at
`lastInvoke + wait` once the calls stop. -/
def throttleFinal {A : Type} (wait : Nat) (s : ThrottleState A) :
    List (Nat × A) :=
  match s.lastInvoke, s.pending with
  | some li, some a => [(li + wait, a)]
  | _, _ => []

/-- All invocations produced by a call sequence, including the final
trailing invocation left pending after the last call. -/
def throttleRun {A : Type} (wait : Nat) (calls : List (Nat × A)) :
    List (Nat × A) :=
  let run := throttleRunAux wait ⟨none, none⟩ calls
  run.1 ++ throttleFinal wait run.2

/-- `throttleRun` generalized to an arbitrary starting state (used to
reason about the run by induction on the call list). -/
def throttleEmits {A : Type} (wait : Nat) (s : ThrottleState A)
    (calls : List (Nat × A)) : List (Nat × A) :=
  let run := throttleRunAux wait s calls
  run.1 ++ throttleFinal wait run.2

/-- `throttledLogRateLimitInfo = throttle((a, b) => this.logRateLimitInfo(a, b),
10 * 1000)`: the timestamped log entries emitted for a timestamped call
sequence. -/
def throttledLogRateLimitInfo {Num : Type} (numStr : Num → String)
    (calls : List (Nat × (Num × Num))) : List (Nat × LogEntry) :=
  (throttleRun (10 * 1000) calls).map
    (fun e => (e.1, logRateLimitInfo numStr e.2.1 e.2.2))

/-! ## Context cache (lines 248–253) -/

/-- Modelled from the spec: `makeContextCache` lives in
`src/lib/req_cache.ts`, which is not among the provided sources.  Per §4.6
of the spec it maps a logical context key to a lazily-constructed value:
first access for a key constructs the value and memoizes it, subsequent
accesses return the memoized instance, and an explicit `assignValue`
override pre-assigns a specific instance for a key, which subsequent
accesses then return. -/
structure ContextCache (K V : Type) where
  entries : List (K × V)
deriving DecidableEq, Repr

/-- The cached value for a key, if any. -/
def ContextCache.lookup {K V : Type} [DecidableEq K] (c : ContextCache K V)
    (k : K) : Option V :=
  (c.entries.find? (fun p => p.1 = k)).map Prod.snd

/-- `get`: return the memoized value for `k`, constructing and memoizing
`factory k` on first access. -/
def ContextCache.get {K V : Type} [DecidableEq K] (factory : K → V)
    (c : ContextCache K V) (k : K) : V × ContextCache K V :=
  match c.lookup k with
  | some v => (v, c)
  | none => (factory k, ⟨(k, factory k) :: c.entries⟩)

/-- `assignValue`: override the entry for `k` with a specific instance. -/
def ContextCache.assignValue {K V : Type} (c : ContextCache K V) (k : K)
    (v : V) : ContextCache K V :=
  ⟨(k, v) :: c.entries⟩

/-! ## Theorems -/

/-- C4: for every commit whose author timestamp is `T1` and whose committer
timestamp is `T2`, `getCommitDate` returns exactly `max T1 T2`: the
committer date when it is strictly later than the author date, the author
date otherwise, including the tie case where the two are equal. -/
theorem getCommitDate_eq_max (commit : Commit) :
    getCommitDate commit = max commit.author.date commit.committer.date := by
  unfold getCommitDate
  split <;> omega

/-- C1: for every compare response, if the ahead-by count is greater than
zero and the commits list is empty, `compare` logs the anomalous response
body at error level and fails with the protocol error
`'Unexpected github response'`; if the ahead-by count is zero, an empty
commits list is valid and the operation returns
`{ totalMissingCommits, missingCommits }` taken from the response. -/
theorem compare_protocol_invariant (respData : GithubApiCompare) :
    (respData.ahead_by > 0 → respData.commits = [] →
      compare respData =
        ([{ level := .error,
            msg := "unexpected github response, expected oldest missing commit",
            meta := .compareError respData.ahead_by respData }],
          .error "Unexpected github response")) ∧
    (respData.ahead_by = 0 →
      compare respData =
        ([], .ok { totalMissingCommits := respData.ahead_by,
                   missingCommits := respData.commits })) := by
  constructor
  · intro hpos hnil
    simp [compare, hpos, hnil]
  · intro hzero
    simp [compare, hzero]

/-- Witness for C1: the invariant violation at `ahead_by = 2` with no
commits, and the valid empty response at `ahead_by = 0`. -/
theorem compare_protocol_invariant_witness :
    compare { ahead_by := 2, commits := [] } =
      ([{ level := .error,
          msg := "unexpected github response, expected oldest missing commit",
          meta := .compareError 2 { ahead_by := 2, commits := [] } }],
        .error "Unexpected github response") ∧
    compare { ahead_by := 0, commits := [] } =
      ([], .ok { totalMissingCommits := 0, missingCommits := [] }) :=
  ⟨(compare_protocol_invariant { ahead_by := 2, commits := [] }).1 (by decide) rfl,
   (compare_protocol_invariant { ahead_by := 0, commits := [] }).2 rfl⟩

/-- C5: for every error raised during request dispatch, a response-level
failure (response received, and a request was made) is logged at debug
severity with the `githubApiResponseError` event type and the request
context plus response status, statusText, headers and body; a request-level
failure (request made, no response) is logged at debug severity with the
`githubApiRequestError` event type and method, url, params, body and the
error message; an error matching neither shape produces no events at all;
and in all three cases the original error is rethrown unchanged. -/
theorem req_error_classification (method url : String)
    (params body : Option String) (error : JsError) :
    (req method url params body (.err error)).2 = .error error ∧
    (∀ resp, error.response = some resp → error.hasRequest = true →
      (req method url params body (.err error)).1 =
        [.monitorFeed resp,
          .log { level := .debug, msg := "github api response error",
                 meta := .responseError resp.status method url params body resp }]) ∧
    (error.response = none → error.hasRequest = true →
      (req method url params body (.err error)).1 =
        [.log { level := .debug, msg := "github api request error",
                meta := .requestError error.message method url params body }]) ∧
    (error.hasRequest = false →
      (req method url params body (.err error)).1 = []) := by
  refine ⟨rfl, ?_, ?_, ?_⟩
  · intro resp hresp hreq
    simp [req, hresp, hreq]
  · intro hresp hreq
    simp [req, hresp, hreq]
  · intro hreq
    cases hr : error.response <;> simp [req, hr, hreq]

/-- Witness for C5: the three error shapes at concrete inputs. -/
theorem req_error_classification_witness :
    (req "get" "/u" none none
        (.err { hasRequest := true,
                response := some { status := 422, statusText := "Unprocessable",
                                   headers := some [], data := "b" },
                message := "m" })).1 =
      [.monitorFeed { status := 422, statusText := "Unprocessable",
                      headers := some [], data := "b" },
        .log { level := .debug, msg := "github api response error",
               meta := .responseError 422 "get" "/u" none none
                 { status := 422, statusText := "Unprocessable",
                   headers := some [], data := "b" } }] ∧
    (req "get" "/u" none none
        (.err { hasRequest := true, response := none, message := "m" })).1 =
      [.log { level := .debug, msg := "github api request error",
              meta := .requestError "m" "get" "/u" none none }] ∧
    (req "get" "/u" none none
        (.err { hasRequest := false, response := none, message := "m" })).1 = [] :=
  ⟨(req_error_classification "get" "/u" none none
      { hasRequest := true,
        response := some { status := 422, statusText := "Unprocessable",
                           headers := some [], data := "b" },
        message := "m" }).2.1 _ rfl rfl,
   (req_error_classification "get" "/u" none none
      { hasRequest := true, response := none, message := "m" }).2.2.1 rfl rfl,
   (req_error_classification "get" "/u" none none
      { hasRequest := false, response := none, message := "m" }).2.2.2 rfl⟩

/-- C7: for every dispatched request that obtains a response — success or
HTTP-level failure — `req` feeds that response into the rate-limit monitor
as the first observable event, before returning the response or rethrowing
the error; a request-level failure (no response obtained) feeds nothing.
The hypothesis `hax` is the axios error-shape invariant declared by the
source's `AxiosErrorResp extends AxiosErrorReq`: an error carrying a
response also carries a request. -/
theorem req_feeds_monitor (method url : String) (params body : Option String)
    (outcome : AxiosOutcome)
    (hax : ∀ e r, outcome = .err e → e.response = some r → e.hasRequest = true) :
    (∀ resp, outcome = .ok resp →
      (req method url params body outcome).1.head? = some (.monitorFeed resp)) ∧
    (∀ e resp, outcome = .err e → e.response = some resp →
      (req method url params body outcome).1.head? = some (.monitorFeed resp)) ∧
    (∀ e, outcome = .err e → e.response = none →
      monitorFeeds (req method url params body outcome).1 = []) := by
  refine ⟨?_, ?_, ?_⟩
  · rintro resp rfl
    rfl
  · rintro e resp rfl hresp
    have hreq := hax e resp rfl hresp
    simp [req, hresp, hreq]
  · rintro e rfl hresp
    cases hreq : e.hasRequest <;> simp [req, hresp, hreq, monitorFeeds]

/-- Witness for C7: the monitor feed on a success, on an HTTP 500 failure,
and the absence of feeds on a request-level failure. -/
theorem req_feeds_monitor_witness :
    (req "get" "/u" none none
        (.ok { status := 200, statusText := "OK", headers := some [],
               data := "d" })).1.head? =
      some (.monitorFeed { status := 200, statusText := "OK", headers := some [],
                           data := "d" }) ∧
    (req "get" "/u" none none
        (.err { hasRequest := true,
                response := some { status := 500, statusText := "ISE",
                                   headers := some [], data := "e" },
                message := "m" })).1.head? =
      some (.monitorFeed { status := 500, statusText := "ISE",
                           headers := some [], data := "e" }) ∧
    monitorFeeds (req "get" "/u" none none
        (.err { hasRequest := true, response := none, message := "m" })).1 = [] :=
  ⟨(req_feeds_monitor "get" "/u" none none
        (.ok { status := 200, statusText := "OK", headers := some [], data := "d" })
        (by rintro e r ⟨⟩)).1 _ rfl,
   (req_feeds_monitor "get" "/u" none none
        (.err { hasRequest := true,
                response := some { status := 500, statusText := "ISE",
                                   headers := some [], data := "e" },
                message := "m" })
        (by rintro e r ⟨⟩ h; rfl)).2.1 _ _ rfl rfl,
   (req_feeds_monitor "get" "/u" none none
        (.err { hasRequest := true, response := none, message := "m" })
        (by rintro e r ⟨⟩ h; exact absurd h (by simp))).2.2 _ rfl rfl⟩

/-- C6: for every dispatched response whose headers include both rate-limit
headers with (truthy) numeric values, the monitor parses both values with
`parseFloat` and hands them to the throttled logger, whose emission is the
info-level line `rate limit {remaining}/{total}` tagged with the
`githubRateLimit` indicator; for every response missing either header (or
whose headers object is falsy), it performs no emission at all — and, being
a total function, raises no exception. -/
theorem checkForRateLimitInfo_spec {Num : Type} (parseFloat : String → Num)
    (numStr : Num → String) (resp : AxiosResponse) :
    (∀ hs rem lim, resp.headers = some hs →
      headerGet hs "x-ratelimit-remaining" = some rem → rem ≠ "" →
      headerGet hs "x-ratelimit-limit" = some lim → lim ≠ "" →
      (checkForRateLimitInfo parseFloat resp).map
          (fun p => logRateLimitInfo numStr p.1 p.2) =
        [{ level := .info,
           msg := "rate limit " ++ numStr (parseFloat rem) ++ "/" ++
             numStr (parseFloat lim),
           meta := .rateLimit (numStr (parseFloat rem))
             (numStr (parseFloat lim)) }]) ∧
    (∀ hs, resp.headers = some hs →
      (headerGet hs "x-ratelimit-remaining" = none ∨
        headerGet hs "x-ratelimit-limit" = none) →
      checkForRateLimitInfo parseFloat resp = []) ∧
    (resp.headers = none → checkForRateLimitInfo parseFloat resp = []) := by
  refine ⟨?_, ?_, ?_⟩
  · intro hs rem lim hhs hrem hremT hlim hlimT
    simp [checkForRateLimitInfo, hhs, hrem, hlim, truthy, hremT, hlimT,
      logRateLimitInfo]
  · rintro hs hhs (hmiss | hmiss) <;>
      simp [checkForRateLimitInfo, hhs, hmiss, truthy]
  · intro hnone
    simp [checkForRateLimitInfo, hnone]

/-- Witness for C6: an emission for headers `remaining = "4999"`,
`limit = "5000"`, and silence when the remaining header is absent. -/
theorem checkForRateLimitInfo_spec_witness :
    (checkForRateLimitInfo (fun s => s)
        { status := 200, statusText := "OK",
          headers := some [("x-ratelimit-limit", "5000"),
                           ("x-ratelimit-remaining", "4999")],
          data := "" }).map (fun p => logRateLimitInfo (fun s => s) p.1 p.2) =
      [{ level := .info, msg := "rate limit " ++ "4999" ++ "/" ++ "5000",
         meta := .rateLimit "4999" "5000" }] ∧
    checkForRateLimitInfo (fun s => s)
        { status := 200, statusText := "OK",
          headers := some [("x-ratelimit-limit", "5000")], data := "" } = [] :=
  ⟨(checkForRateLimitInfo_spec (fun s => s) (fun s => s)
      { status := 200, statusText := "OK",
        headers := some [("x-ratelimit-limit", "5000"),
                         ("x-ratelimit-remaining", "4999")],
        data := "" }).1 _ "4999" "5000" rfl (by decide) (by decide) (by decide)
      (by decide),
   (checkForRateLimitInfo_spec (fun s => s) (fun s => s)
      { status := 200, statusText := "OK",
        headers := some [("x-ratelimit-limit", "5000")], data := "" }).2.1 _
      rfl (Or.inl (by decide))⟩

/-- C10 counterexample: with both rate-limit headers present and a
remaining count of exactly `"0"`, the monitor does emit — `"0"` is a
non-empty string, hence truthy in JavaScript, so the claim that a `"0"`
value suppresses the emission is false on the code. -/
theorem checkForRateLimitInfo_zero_is_truthy :
    checkForRateLimitInfo (fun s => s)
        { status := 200, statusText := "OK",
          headers := some [("x-ratelimit-limit", "5000"),
                           ("x-ratelimit-remaining", "0")],
          data := "" } ≠ [] := by
  decide

/-- C10 (amended): for every response in which both rate-limit headers are
present but either header's value is the empty string — the only falsy
string — the monitor performs no log emission, because header presence is
tested by truthiness of the header values rather than by key presence; a
value of `"0"` is truthy, so it does not suppress the emission. -/
theorem checkForRateLimitInfo_truthiness {Num : Type}
    (parseFloat : String → Num) (resp : AxiosResponse) (hs : List (String × String))
    (hhs : resp.headers = some hs)
    (hempty : headerGet hs "x-ratelimit-remaining" = some "" ∨
      headerGet hs "x-ratelimit-limit" = some "") :
    checkForRateLimitInfo parseFloat resp = [] := by
  rcases hempty with hmiss | hmiss <;>
    simp [checkForRateLimitInfo, hhs, hmiss, truthy]

/-- Witness for C10 (amended): no emission when the remaining header is
the empty string. -/
theorem checkForRateLimitInfo_truthiness_witness :
    checkForRateLimitInfo (fun s => s)
        { status := 200, statusText := "OK",
          headers := some [("x-ratelimit-limit", "5000"),
                           ("x-ratelimit-remaining", "")],
          data := "" } = [] :=
  checkForRateLimitInfo_truthiness (fun s => s)
    { status := 200, statusText := "OK",
      headers := some [("x-ratelimit-limit", "5000"),
                       ("x-ratelimit-remaining", "")],
      data := "" } _ rfl (Or.inl (by decide))

/-- C9 (modelled from the spec, `req_cache.ts` not being among the
sources): for every context key, the first access through the context cache
constructs the value with the factory and memoizes it; a second access with
the same key returns that identical memoized instance (and leaves the cache
unchanged); and after an explicit override assigns a specific instance for
a key, every subsequent access for that key returns the overridden
instance instead of constructing a new one. -/
theorem contextCache_memoizes_and_overrides {K V : Type} [DecidableEq K]
    (factory : K → V) (c : ContextCache K V) (k : K) :
    (c.lookup k = none →
      (ContextCache.get factory c k).1 = factory k) ∧
    ((ContextCache.get factory (ContextCache.get factory c k).2 k).1 =
        (ContextCache.get factory c k).1 ∧
      (ContextCache.get factory (ContextCache.get factory c k).2 k).2 =
        (ContextCache.get factory c k).2) ∧
    (∀ v : V,
      (ContextCache.get factory (c.assignValue k v) k).1 = v ∧
      (ContextCache.get factory (c.assignValue k v) k).2 =
        c.assignValue k v) := by
  refine ⟨?_, ?_, ?_⟩
  · intro hnone
    simp [ContextCache.get, hnone]
  · cases hl : c.lookup k with
    | some v =>
      constructor <;> simp [ContextCache.get, hl]
    | none =>
      have hg : ContextCache.get factory c k =
          (factory k, { entries := (k, factory k) :: c.entries }) := by
        unfold ContextCache.get
        rw [hl]
      have hl2 : ContextCache.lookup { entries := (k, factory k) :: c.entries } k
          = some (factory k) := by
        simp [ContextCache.lookup, List.find?_cons_of_pos]
      rw [hg]
      constructor <;> simp [ContextCache.get, hl2]
  · intro v
    have hl : (c.assignValue k v).lookup k = some v := by
      simp [ContextCache.assignValue, ContextCache.lookup, List.find?]
    constructor <;> simp [ContextCache.get, hl]

/-- Witness for C9: first access constructs `10 * 7`, the second access
returns the same instance and cache, and an override to `99` sticks. -/
theorem contextCache_memoizes_and_overrides_witness :
    ((ContextCache.get (fun n => 10 * n) ({ entries := [] } : ContextCache Nat Nat)
        7).1 = 10 * 7) ∧
    ((ContextCache.get (fun n => 10 * n)
        (ContextCache.get (fun n => 10 * n)
          ({ entries := [] } : ContextCache Nat Nat) 7).2 7).1 =
        (ContextCache.get (fun n => 10 * n)
          ({ entries := [] } : ContextCache Nat Nat) 7).1 ∧
      (ContextCache.get (fun n => 10 * n)
        (ContextCache.get (fun n => 10 * n)
          ({ entries := [] } : ContextCache Nat Nat) 7).2 7).2 =
        (ContextCache.get (fun n => 10 * n)
          ({ entries := [] } : ContextCache Nat Nat) 7).2) ∧
    ((ContextCache.get (fun n => 10 * n)
        (ContextCache.assignValue
          ({ entries := [] } : ContextCache Nat Nat) 7 99) 7).1 = 99) := by
  have h := contextCache_memoizes_and_overrides (fun n => 10 * n)
    ({ entries := [] } : ContextCache Nat Nat) 7
  exact ⟨h.1 rfl, h.2.1, (h.2.2 99).1⟩

/-- C2: for a 2-page upstream response sequence where page 1 returns 3
records and a link header parsing to a next relation, and page 2 returns 2
records and a link header parsing with no next relation, the open-PR
traversal yields exactly the 5 records in page order (all of page 1 before
any of page 2), issues exactly 2 upstream requests, and the second request
uses the continuation URL from page 1's link header verbatim. -/
theorem ittrAllOpenPrs_two_pages (parseLink : String → Option ParsedLinks)
    (p1 p2 : List GithubApiPr) (l1 l2 nextUrl : String)
    (h1 : p1.length = 3) (h2 : p2.length = 2)
    (hl1 : l1 ≠ "") (hl2 : l2 ≠ "")
    (hp1 : parseLink l1 = some { next := some nextUrl })
    (hp2 : parseLink l2 = some { next := none }) :
    ittrAllOpenPrs parseLink
        [{ data := p1, link := some l1 }, { data := p2, link := some l2 }] =
      { yielded := p1 ++ p2,
        requests := [.initial, .next nextUrl],
        finish := .done } ∧
    (ittrAllOpenPrs parseLink
        [{ data := p1, link := some l1 }, { data := p2, link := some l2 }]
      ).yielded.length = 5 := by
  have heq : ittrAllOpenPrs parseLink
      [{ data := p1, link := some l1 }, { data := p2, link := some l2 }] =
      { yielded := p1 ++ p2,
        requests := [.initial, .next nextUrl],
        finish := .done } := by
    simp [ittrAllOpenPrs, ittrLoop, truthy, hl1, hl2, hp1, hp2]
  refine ⟨heq, ?_⟩
  rw [heq]
  simp [h1, h2]

/-- Witness for C2: a concrete parser, two concrete pages. -/
theorem ittrAllOpenPrs_two_pages_witness :
    ittrAllOpenPrs
        (fun s => if s = "rel-next-L1" then
            some { next := some "https://api.github.com/repositories/1/pulls?page=2" }
          else if s = "rel-last-L2" then some { next := none }
          else none)
        [{ data := [1, 2, 3], link := some "rel-next-L1" },
         { data := [4, 5], link := some "rel-last-L2" }] =
      { yielded := [1, 2, 3] ++ [4, 5],
        requests := [.initial,
          .next "https://api.github.com/repositories/1/pulls?page=2"],
        finish := .done } ∧
    (ittrAllOpenPrs
        (fun s => if s = "rel-next-L1" then
            some { next := some "https://api.github.com/repositories/1/pulls?page=2" }
          else if s = "rel-last-L2" then some { next := none }
          else none)
        [{ data := [1, 2, 3], link := some "rel-next-L1" },
         { data := [4, 5], link := some "rel-last-L2" }]).yielded.length = 5 :=
  ittrAllOpenPrs_two_pages _ [1, 2, 3] [4, 5] "rel-next-L1" "rel-last-L2"
    "https://api.github.com/repositories/1/pulls?page=2"
    rfl rfl (by decide) (by decide) (by simp) (by simp)

/-- Running the loop over a prefix of pages that each carry a truthy link
header parsing to a next relation: the loop yields the prefix's records in
order, issues one request per prefix page, and continues on the remaining
responses with a singleton queue. -/
theorem ittrLoop_prefix (parseLink : String → Option ParsedLinks)
    (pre : List PageResponse) :
    ∀ (tail : List PageResponse) (url : Option String),
    (∀ r ∈ pre, ∃ u, truthy r.link = true ∧
      parseLink (r.link.getD "") = some { next := some u }) →
    ∃ url' : Option String,
      (ittrLoop parseLink (pre ++ tail) [url]).yielded =
        (pre.map PageResponse.data).flatten ++
          (ittrLoop parseLink tail [url']).yielded ∧
      (ittrLoop parseLink (pre ++ tail) [url]).requests.length =
        pre.length + (ittrLoop parseLink tail [url']).requests.length ∧
      (ittrLoop parseLink (pre ++ tail) [url]).finish =
        (ittrLoop parseLink tail [url']).finish := by
  induction pre with
  | nil =>
    intro tail url _
    exact ⟨url, by simp⟩
  | cons r pre ih =>
    intro tail url hpre
    obtain ⟨u, htr, hparse⟩ := hpre r (List.mem_cons_self r pre)
    obtain ⟨url', hy, hr, hf⟩ := ih tail (some u)
      (fun r hr => hpre r (List.mem_cons_of_mem _ hr))
    refine ⟨url', ?_, ?_, ?_⟩ <;>
      simp [ittrLoop, htr, hparse, hy, hr, hf, List.append_assoc] <;>
      omega

/-- C3: for every page response in the open-PR traversal that carries no
(truthy) link header, the traversal first yields every record of the pages
before it and of that page, in order, and then fails the whole traversal
with the fatal protocol error `'missing link header'`, issuing no further
page requests; a page whose link header does not parse likewise fails the
traversal with `'unable to parse link header'` after that page's records
are yielded.  The prefix hypothesis states that every earlier page was
followable (truthy link header parsing to a next relation), i.e. that the
traversal indeed reaches the offending page. -/
theorem ittrAllOpenPrs_link_failure (parseLink : String → Option ParsedLinks)
    (pre : List PageResponse) (page : PageResponse) (rest : List PageResponse)
    (hpre : ∀ r ∈ pre, ∃ u, truthy r.link = true ∧
      parseLink (r.link.getD "") = some { next := some u })
    (hbad : truthy page.link = false ∨
      (truthy page.link = true ∧ parseLink (page.link.getD "") = none)) :
    (ittrAllOpenPrs parseLink  (pre ++ page :: rest)).yielded =
      (pre.map PageResponse.data).flatten ++ page.data ∧
    (ittrAllOpenPrs parseLink (pre ++ page :: rest)).requests.length =
      pre.length + 1 ∧
    (ittrAllOpenPrs parseLink (pre ++ page :: rest)).finish =
      .error (if truthy page.link = false then "missing link header"
        else "unable to parse link header") := by
  obtain ⟨url', hy, hr, hf⟩ :=
    ittrLoop_prefix parseLink pre (page :: rest) none hpre
  unfold ittrAllOpenPrs
  rw [hy, hr, hf]
  rcases hbad with hbad | ⟨htr, hparse⟩
  · cases url' <;> simp [ittrLoop, hbad]
  · cases url' <;> simp [ittrLoop, htr, hparse]

/-- Witness for C3: one followable page, then a page with no link header. -/
theorem ittrAllOpenPrs_link_failure_witness :
    (ittrAllOpenPrs
        (fun s => if s = "rel-next-L1" then some { next := some "u2" } else none)
        [{ data := [1, 2], link := some "rel-next-L1" },
         { data := [3], link := none }]).yielded =
      ([[1, 2]] : List (List GithubApiPr)).flatten ++ [3] ∧
    (ittrAllOpenPrs
        (fun s => if s = "rel-next-L1" then some { next := some "u2" } else none)
        [{ data := [1, 2], link := some "rel-next-L1" },
         { data := [3], link := none }]).requests.length = 1 + 1 ∧
    (ittrAllOpenPrs
        (fun s => if s = "rel-next-L1" then some { next := some "u2" } else none)
        [{ data := [1, 2], link := some "rel-next-L1" },
         { data := [3], link := none }]).finish =
      .error (if truthy (none : Option String) = false then "missing link header"
        else "unable to parse link header") := by
  have h := ittrAllOpenPrs_link_failure
    (fun s => if s = "rel-next-L1" then some { next := some "u2" } else none)
    [{ data := [1, 2], link := some "rel-next-L1" }]
    { data := [3], link := none } []
    (by
      intro r hr
      simp at hr
      exact ⟨"u2", by rw [hr]; exact ⟨rfl, by simp⟩⟩)
    (Or.inl rfl)
  simpa using h

/-- A throttled call with no prior invocation fires on the leading edge. -/
theorem throttleCall_noinvoke {A : Type} (wait : Nat) (p : Option A)
    (t : Nat) (a : A) :
    throttleCall wait ⟨none, p⟩ t a = ([(t, a)], ⟨some t, none⟩) := by
  cases p <;> rfl

/-- A throttled call at least `wait` after the last invocation, with nothing
pending, fires on the leading edge. -/
theorem throttleCall_lead {A : Type} (wait li t : Nat) (a : A)
    (h : li + wait ≤ t) :
    throttleCall wait ⟨some li, none⟩ t a = ([(t, a)], ⟨some t, none⟩) := by
  simp [throttleCall, throttleFlush, h]

/-- A throttled call within `wait` of the last invocation, with nothing
pending, stores its arguments as the pending trailing invocation. -/
theorem throttleCall_hold {A : Type} (wait li t : Nat) (a : A)
    (h : ¬ li + wait ≤ t) :
    throttleCall wait ⟨some li, none⟩ t a = ([], ⟨some li, some a⟩) := by
  simp [throttleCall, throttleFlush, h]

/-- A throttled call whose due trailing invocation has passed and that is
itself at least `wait` past the trailing edge: both fire. -/
theorem throttleCall_flush_lead {A : Type} (wait li t : Nat) (p a : A)
    (h1 : li + wait ≤ t) (h2 : li + wait + wait ≤ t) :
    throttleCall wait ⟨some li, some p⟩ t a =
      ([(li + wait, p), (t, a)], ⟨some t, none⟩) := by
  simp [throttleCall, throttleFlush, h1, h2]

/-- A throttled call whose due trailing invocation has passed but that
lands within `wait` of the trailing edge: the trailing invocation fires
and the call's arguments become the new pending arguments. -/
theorem throttleCall_flush_hold {A : Type} (wait li t : Nat) (p a : A)
    (h1 : li + wait ≤ t) (h2 : ¬ li + wait + wait ≤ t) :
    throttleCall wait ⟨some li, some p⟩ t a =
      ([(li + wait, p)], ⟨some (li + wait), some a⟩) := by
  simp [throttleCall, throttleFlush, h1, h2]

/-- A throttled call before the pending trailing invocation is due:
nothing fires and the pending arguments are overwritten. -/
theorem throttleCall_early {A : Type} (wait li t : Nat) (p a : A)
    (h : ¬ li + wait ≤ t) :
    throttleCall wait ⟨some li, some p⟩ t a = ([], ⟨some li, some a⟩) := by
  simp [throttleCall, throttleFlush, h]

/-- With no calls, the emissions are just the pending trailing one. -/
theorem throttleEmits_nil {A : Type} (wait : Nat) (s : ThrottleState A) :
    throttleEmits wait s [] = throttleFinal wait s := by
  simp [throttleEmits, throttleRunAux]

/-- Unfolding one call of the throttle run. -/
theorem throttleEmits_cons {A : Type} (wait : Nat) (s : ThrottleState A)
    (t : Nat) (a : A) (rest : List (Nat × A)) :
    throttleEmits wait s ((t, a) :: rest) =
      (throttleCall wait s t a).1 ++
        throttleEmits wait (throttleCall wait s t a).2 rest := by
  simp [throttleEmits, throttleRunAux]

/-- A chain whose head is below every element of the tail. -/
theorem chain'_cons_of_forall {α : Type} {r : α → α → Prop} {x : α}
    {l : List α} (h1 : ∀ y ∈ l, r x y) (h2 : List.Chain' r l) :
    List.Chain' r (x :: l) := by
  cases l with
  | nil => simp
  | cons y ys => exact List.Chain'.cons (h1 y (List.mem_cons_self y ys)) h2

/-- A most-recent-observation certificate over `rest` lifts over an earlier
call `(t, a)`. -/
theorem recency_lift {A : Type} {t : Nat} {a : A} {rest : List (Nat × A)}
    {e : Nat × A} (hhead : ∀ b ∈ rest, t < b.1)
    (h : ∃ c ∈ rest, c.2 = e.2 ∧ c.1 ≤ e.1 ∧
      ∀ c' ∈ rest, c.1 < c'.1 → e.1 ≤ c'.1) :
    ∃ c ∈ (t, a) :: rest, c.2 = e.2 ∧ c.1 ≤ e.1 ∧
      ∀ c' ∈ (t, a) :: rest, c.1 < c'.1 → e.1 ≤ c'.1 := by
  obtain ⟨c, hc, hcv, hcle, hrec⟩ := h
  refine ⟨c, List.mem_cons_of_mem _ hc, hcv, hcle, ?_⟩
  intro c' hc' hlt
  rcases List.mem_cons.mp hc' with rfl | hc'
  · exact absurd hlt (by simpa using Nat.lt_asymm (hhead c hc))
  · exact hrec c' hc' hlt

/-- A leading-edge emission is its own most-recent observation. -/
theorem recency_self {A : Type} {t : Nat} {a : A} {rest : List (Nat × A)} :
    ∃ c ∈ (t, a) :: rest, c.2 = (t, a).2 ∧ c.1 ≤ (t, a).1 ∧
      ∀ c' ∈ (t, a) :: rest, c.1 < c'.1 → (t, a).1 ≤ c'.1 :=
  ⟨(t, a), List.mem_cons_self _ _, rfl, le_refl _, fun _ _ hlt => le_of_lt hlt⟩

/-- Spacing invariant of the throttle: over strictly increasing call
times, emissions are at least `wait` apart, and from a state whose last
invocation was at `li` every emission is at or after `li + wait`. -/
theorem throttleEmits_spacing {A : Type} (wait : Nat) :
    ∀ (calls : List (Nat × A)) (s : ThrottleState A),
    List.Pairwise (fun c c' => c.1 < c'.1) calls →
    (∀ li, s.lastInvoke = some li → ∀ c ∈ calls, li ≤ c.1) →
    List.Chain' (fun e e' => e.1 + wait ≤ e'.1) (throttleEmits wait s calls) ∧
    (∀ li, s.lastInvoke = some li →
      ∀ e ∈ throttleEmits wait s calls, li + wait ≤ e.1) := by
  intro calls
  induction calls with
  | nil =>
    intro s _ _
    refine ⟨?_, ?_⟩
    · rcases s with ⟨_ | li, _ | a⟩ <;> simp [throttleEmits_nil, throttleFinal]
    · intro li hli e he
      rcases s with ⟨_ | li', _ | a⟩ <;>
        simp_all [throttleEmits_nil, throttleFinal]
  | cons c rest ih =>
    obtain ⟨t, a⟩ := c
    intro s hp hlb
    obtain ⟨hhead0, htail⟩ := List.pairwise_cons.mp hp
    have hhead : ∀ b ∈ rest, t < b.1 := hhead0
    rcases s with ⟨oli, op⟩
    rcases oli with _ | li
    · -- no prior invocation: the call fires on the leading edge
      obtain ⟨ihc, ihb⟩ := ih ⟨some t, none⟩ htail
        (by
          intro li' h c hc
          injection h with h
          subst h
          exact le_of_lt (hhead c hc))
      rw [throttleEmits_cons, throttleCall_noinvoke wait op t a]
      simp only [List.singleton_append]
      refine ⟨chain'_cons_of_forall (fun y hy => ?_) ihc, ?_⟩
      · simpa using ihb t rfl y hy
      · intro li' h
        exact Option.noConfusion h
    · rcases op with _ | p
      · by_cases h1 : li + wait ≤ t
        · -- leading edge
          obtain ⟨ihc, ihb⟩ := ih ⟨some t, none⟩ htail
            (by
              intro li' h c hc
              injection h with h
              subst h
              exact le_of_lt (hhead c hc))
          rw [throttleEmits_cons, throttleCall_lead wait li t a h1]
          simp only [List.singleton_append]
          refine ⟨chain'_cons_of_forall (fun y hy => ?_) ihc, ?_⟩
          · simpa using ihb t rfl y hy
          · intro li' h e he
            injection h with h
            subst h
            rcases List.mem_cons.mp he with rfl | he
            · simpa using h1
            · have h2 := ihb t rfl e he
              omega
        · -- throttled: the arguments become pending
          obtain ⟨ihc, ihb⟩ := ih ⟨some li, some a⟩ htail
            (by
              intro li' h c hc
              injection h with h
              subst h
              have h2 : li ≤ t := hlb li rfl (t, a) (List.mem_cons_self _ _)
              have h3 := hhead c hc
              omega)
          rw [throttleEmits_cons, throttleCall_hold wait li t a h1]
          simp only [List.nil_append]
          refine ⟨ihc, ?_⟩
          intro li' h e he
          injection h with h
          subst h
          exact ihb li rfl e he
      · by_cases h1 : li + wait ≤ t
        · by_cases h2 : li + wait + wait ≤ t
          · -- trailing edge fires, then the call fires on the leading edge
            obtain ⟨ihc, ihb⟩ := ih ⟨some t, none⟩ htail
              (by
                intro li' h c hc
                injection h with h
                subst h
                exact le_of_lt (hhead c hc))
            rw [throttleEmits_cons, throttleCall_flush_lead wait li t p a h1 h2]
            simp only [List.cons_append, List.singleton_append]
            refine ⟨List.Chain'.cons (by simpa using h2)
              (chain'_cons_of_forall (fun y hy => by simpa using ihb t rfl y hy)
                ihc), ?_⟩
            intro li' h e he
            injection h with h
            subst h
            rcases List.mem_cons.mp he with rfl | he
            · simp
            rcases List.mem_cons.mp he with rfl | he
            · simpa using h1
            · have h3 := ihb t rfl e he
              omega
          · -- trailing edge fires, call lands inside the next window
            obtain ⟨ihc, ihb⟩ := ih ⟨some (li + wait), some a⟩ htail
              (by
                intro li' h c hc
                injection h with h
                subst h
                have h3 := hhead c hc
                omega)
            rw [throttleEmits_cons, throttleCall_flush_hold wait li t p a h1 h2]
            simp only [List.singleton_append]
            refine ⟨chain'_cons_of_forall
              (fun y hy => by simpa using ihb (li + wait) rfl y hy) ihc, ?_⟩
            intro li' h e he
            injection h with h
            subst h
            rcases List.mem_cons.mp he with rfl | he
            · simp
            · have h3 := ihb (li + wait) rfl e he
              omega
        · -- before the trailing edge: pending arguments are overwritten
          obtain ⟨ihc, ihb⟩ := ih ⟨some li, some a⟩ htail
            (by
              intro li' h c hc
              injection h with h
              subst h
              have h2 : li ≤ t := hlb li rfl (t, a) (List.mem_cons_self _ _)
              have h3 := hhead c hc
              omega)
          rw [throttleEmits_cons, throttleCall_early wait li t p a h1]
          simp only [List.nil_append]
          refine ⟨ihc, ?_⟩
          intro li' h e he
          injection h with h
          subst h
          exact ihb li rfl e he

/-- Recency invariant of the throttle: over strictly increasing call times,
every emission either carries the arguments of a remaining call that no
later call precedes the emission (its most recent observation), or is the
firing of the state's initial pending trailing invocation, due before every
remaining call. -/
theorem throttleEmits_recency {A : Type} (wait : Nat) :
    ∀ (calls : List (Nat × A)) (s : ThrottleState A),
    List.Pairwise (fun c c' => c.1 < c'.1) calls →
    ∀ e ∈ throttleEmits wait s calls,
      (∃ c ∈ calls, c.2 = e.2 ∧ c.1 ≤ e.1 ∧
        ∀ c' ∈ calls, c.1 < c'.1 → e.1 ≤ c'.1) ∨
      (∃ li, s.lastInvoke = some li ∧ s.pending = some e.2 ∧
        e.1 = li + wait ∧ ∀ c' ∈ calls, e.1 ≤ c'.1) := by
  intro calls
  induction calls with
  | nil =>
    intro s _ e he
    rcases s with ⟨_ | li, _ | a⟩ <;>
      simp [throttleEmits_nil, throttleFinal] at he
    subst he
    exact Or.inr ⟨li, rfl, rfl, rfl, by simp⟩
  | cons c rest ih =>
    obtain ⟨t, a⟩ := c
    intro s hp e he
    obtain ⟨hhead0, htail⟩ := List.pairwise_cons.mp hp
    have hhead : ∀ b ∈ rest, t < b.1 := hhead0
    rcases s with ⟨oli, op⟩
    rcases oli with _ | li
    · -- leading edge
      rw [throttleEmits_cons, throttleCall_noinvoke wait op t a] at he
      simp only [List.singleton_append, List.mem_cons] at he
      rcases he with rfl | he
      · exact Or.inl recency_self
      · rcases ih ⟨some t, none⟩ htail e he with h | ⟨li', _, hpend, _, _⟩
        · exact Or.inl (recency_lift hhead h)
        · exact Option.noConfusion hpend
    · rcases op with _ | p
      · by_cases h1 : li + wait ≤ t
        · -- leading edge
          rw [throttleEmits_cons, throttleCall_lead wait li t a h1] at he
          simp only [List.singleton_append, List.mem_cons] at he
          rcases he with rfl | he
          · exact Or.inl recency_self
          · rcases ih ⟨some t, none⟩ htail e he with h | ⟨li', _, hpend, _, _⟩
            · exact Or.inl (recency_lift hhead h)
            · exact Option.noConfusion hpend
        · -- throttled: the call's arguments become pending
          rw [throttleEmits_cons, throttleCall_hold wait li t a h1] at he
          simp only [List.nil_append] at he
          rcases ih ⟨some li, some a⟩ htail e he with h |
            ⟨li', hli', hpend, he1, hbound⟩
          · exact Or.inl (recency_lift hhead h)
          · injection hli' with hli'
            subst hli'
            injection hpend with hpend
            refine Or.inl ⟨(t, a), List.mem_cons_self _ _, hpend, ?_, ?_⟩
            · omega
            · intro c' hc' hlt
              rcases List.mem_cons.mp hc' with rfl | hc'
              · exact absurd hlt (by simp)
              · exact hbound c' hc'
      · by_cases h1 : li + wait ≤ t
        · by_cases h2 : li + wait + wait ≤ t
          · -- trailing fires, then leading fires
            rw [throttleEmits_cons,
              throttleCall_flush_lead wait li t p a h1 h2] at he
            simp only [List.cons_append, List.singleton_append,
              List.mem_cons] at he
            rcases he with rfl | rfl | he
            · refine Or.inr ⟨li, rfl, rfl, rfl, ?_⟩
              intro c' hc'
              rcases List.mem_cons.mp hc' with rfl | hc'
              · simpa using h1
              · have h3 := hhead c' hc'
                omega
            · exact Or.inl recency_self
            · rcases ih ⟨some t, none⟩ htail e he with h | ⟨li', _, hpend, _, _⟩
              · exact Or.inl (recency_lift hhead h)
              · exact Option.noConfusion hpend
          · -- trailing fires, the call's arguments become pending
            rw [throttleEmits_cons,
              throttleCall_flush_hold wait li t p a h1 h2] at he
            simp only [List.singleton_append, List.mem_cons] at he
            rcases he with rfl | he
            · refine Or.inr ⟨li, rfl, rfl, rfl, ?_⟩
              intro c' hc'
              rcases List.mem_cons.mp hc' with rfl | hc'
              · simpa using h1
              · have h3 := hhead c' hc'
                omega
            · rcases ih ⟨some (li + wait), some a⟩ htail e he with h |
                ⟨li', hli', hpend, he1, hbound⟩
              · exact Or.inl (recency_lift hhead h)
              · injection hli' with hli'
                subst hli'
                injection hpend with hpend
                refine Or.inl ⟨(t, a), List.mem_cons_self _ _, hpend, ?_, ?_⟩
                · omega
                · intro c' hc' hlt
                  rcases List.mem_cons.mp hc' with rfl | hc'
                  · exact absurd hlt (by simp)
                  · exact hbound c' hc'
        · -- before the trailing edge: pending overwritten by the call
          rw [throttleEmits_cons, throttleCall_early wait li t p a h1] at he
          simp only [List.nil_append] at he
          rcases ih ⟨some li, some a⟩ htail e he with h |
            ⟨li', hli', hpend, he1, hbound⟩
          · exact Or.inl (recency_lift hhead h)
          · injection hli' with hli'
            subst hli'
            injection hpend with hpend
            refine Or.inl ⟨(t, a), List.mem_cons_self _ _, hpend, ?_, ?_⟩
            · omega
            · intro c' hc' hlt
              rcases List.mem_cons.mp hc' with rfl | hc'
              · exact absurd hlt (by simp)
              · exact hbound c' hc'

/-- C8: for every sequence of rate-limit observations (at strictly
increasing timestamps) run through a Client's `throttledLogRateLimitInfo`,
at most one log emission occurs per 10-second window — consecutive
emissions are at least `10 * 1000` milliseconds apart — and each emitted
entry carries the most recently observed (remaining, limit) pair at its
emission time: it is the rendering of some observed pair such that every
strictly later observation is at or after the emission. -/
theorem throttledLogRateLimitInfo_throttles {Num : Type}
    (numStr : Num → String) (calls : List (Nat × (Num × Num)))
    (hmono : List.Pairwise (fun c c' => c.1 < c'.1) calls) :
    List.Chain' (fun e e' => e.1 + 10 * 1000 ≤ e'.1)
      (throttledLogRateLimitInfo numStr calls) ∧
    ∀ e ∈ throttledLogRateLimitInfo numStr calls,
      ∃ c ∈ calls, e.2 = logRateLimitInfo numStr c.2.1 c.2.2 ∧ c.1 ≤ e.1 ∧
        ∀ c' ∈ calls, c.1 < c'.1 → e.1 ≤ c'.1 := by
  have hrun : throttleRun (10 * 1000) calls =
      throttleEmits (10 * 1000) ⟨none, none⟩ calls := rfl
  have hs := throttleEmits_spacing (10 * 1000) calls ⟨none, none⟩ hmono
    (fun li h => Option.noConfusion h)
  have hr := throttleEmits_recency (10 * 1000) calls ⟨none, none⟩ hmono
  constructor
  · unfold throttledLogRateLimitInfo
    rw [hrun, List.chain'_map]
    exact hs.1
  · intro e he
    unfold throttledLogRateLimitInfo at he
    rw [hrun] at he
    obtain ⟨e0, he0, rfl⟩ := List.mem_map.mp he
    rcases hr e0 he0 with ⟨c, hc, hcv, hcle, hrec⟩ | ⟨li, hli, _, _, _⟩
    · refine ⟨c, hc, ?_, hcle, hrec⟩
      rw [hcv]
    · exact Option.noConfusion hli

/-- Witness for C8: three observations, the second landing inside the
first's 10-second window. -/
theorem throttledLogRateLimitInfo_throttles_witness :
    List.Chain' (fun e e' => e.1 + 10 * 1000 ≤ e'.1)
      (throttledLogRateLimitInfo (fun n : Nat => toString n)
        [(0, (5, 100)), (3000, (4, 100)), (20000, (3, 100))]) ∧
    ∀ e ∈ throttledLogRateLimitInfo (fun n : Nat => toString n)
        [(0, (5, 100)), (3000, (4, 100)), (20000, (3, 100))],
      ∃ c ∈ [(0, (5, 100)), (3000, (4, 100)), (20000, (3, 100))],
        e.2 = logRateLimitInfo (fun n : Nat => toString n) c.2.1 c.2.2 ∧
        c.1 ≤ e.1 ∧
        ∀ c' ∈ [(0, (5, 100)), (3000, (4, 100)), (20000, (3, 100))],
          c.1 < c'.1 → e.1 ≤ c'.1 :=
  throttledLogRateLimitInfo_throttles (fun n : Nat => toString n)
    [(0, (5, 100)), (3000, (4, 100)), (20000, (3, 100))] (by decide)

end GithubApiSpec
